import Mathlib

/-!
Verification development for the igwatch disclosure pipeline.

This file gives a shallow embedding, over `List Char`, of the pieces of the
repository that the checked properties concern:

* `app/utils/state.py` — the crash-safe dedup store (`State.add` / `State.save`
  / `State._load`), together with a model of the `json.dumps` / `json.loads`
  calls it makes, restricted to the document shapes the store itself reads and
  writes (JSON arrays of strings and `{"seen": [...]}` objects).
* `app/parsers/extract.py` — the metric extractor `_extract_numbers`, the
  highlight composer `_extract_highlights`, the domain-policy helpers
  (`is_blocked_domain`, `_is_wire_or_first_party`, `_is_junk_domain`), and the
  entry point `fetch_and_summarize`.
* `app/utils/text.py` — the period detector `detect_period_key`.

The Python regexes are embedded as specialised recursive matchers that follow
Python `re` semantics (leftmost match, ordered alternation, lazy/greedy
repetition) for the concrete patterns that appear in the source.  Character
classes (`\s`, `\w`, `\d`) are modelled on their ASCII behaviour, which covers
every character the patterns themselves mention.
-/

namespace IGWatch

/-- ASCII lower-casing of one character, modelling `str.lower()` on the ASCII
range (identity elsewhere). -/
def lowerCh (c : Char) : Char :=
  if 65 ≤ c.toNat ∧ c.toNat ≤ 90 then Char.ofNat (c.toNat + 32) else c

/-- Lower-case a character list. -/
def lowerL (l : List Char) : List Char := l.map lowerCh

/-- Python regex `\s` / `str.strip()` whitespace, ASCII part: space and the
control range TAB (9) through CR (13). -/
def isSpaceCh (c : Char) : Bool :=
  c == ' ' || (9 ≤ c.toNat && c.toNat ≤ 13)

/-- Python regex `\w` (ASCII part): letters, digits, underscore. -/
def isWordCh (c : Char) : Bool := c.isAlphanum || c == '_'

/-- Currency symbols of the `_MONEY` regex class `[\$£€]`. -/
def isCurrencyCh (c : Char) : Bool := c == '$' || c == '£' || c == '€'

/-- Case-insensitive literal match: `pat` is given lower-case; on success
returns the consumed text (original case) and the remainder. -/
def stripCI : List Char → List Char → Option (List Char × List Char)
  | [], t => some ([], t)
  | _ :: _, [] => none
  | p :: ps, c :: cs =>
    if lowerCh c == p then (stripCI ps cs).map (fun a => (c :: a.1, a.2)) else none

/-- `str.strip()` on a character list (ASCII whitespace). -/
def pyStrip (l : List Char) : List Char :=
  ((l.dropWhile isSpaceCh).reverse.dropWhile isSpaceCh).reverse

/-- One step of whitespace-run collapsing used by `_norm`. -/
def collapseWs : List Char → List Char
  | [] => []
  | [c] => if isSpaceCh c then [' '] else [c]
  | c :: d :: cs =>
    if isSpaceCh c then
      if isSpaceCh d then collapseWs (d :: cs) else ' ' :: collapseWs (d :: cs)
    else c :: collapseWs (d :: cs)

/-- `_norm(s) = re.sub(r"[\s\n]+", " ", s.strip())` from `extract.py`. -/
def norm (l : List Char) : List Char := collapseWs (pyStrip l)

/-- Line-break characters recognised by `str.splitlines()`: LF, VT, FF, CR,
FS, GS, RS, NEL, LINE SEPARATOR, PARAGRAPH SEPARATOR. -/
def isLineBreakCh (c : Char) : Bool :=
  [10, 11, 12, 13, 28, 29, 30, 133, 0x2028, 0x2029].contains c.toNat

/-- Split at every line break, keeping a (possibly empty) final segment;
`\r\n` counts as one break. -/
def linesAll : List Char → List (List Char)
  | [] => [[]]
  | '\x0d' :: '\n' :: cs => [] :: linesAll cs
  | c :: cs =>
    if isLineBreakCh c then [] :: linesAll cs
    else
      match linesAll cs with
      | [] => [[c]]
      | l :: ls => (c :: l) :: ls

/-- `str.splitlines()`: `linesAll` ends with an empty segment exactly when
the text is empty or ends in a line break, and Python emits no line for a
trailing break. -/
def pySplitlines (l : List Char) : List (List Char) :=
  if l.isEmpty then []
  else
    let r := linesAll l
    if r.getLast? = some [] then r.dropLast else r

/-! ### The `_MONEY`, `_PCT` and `_NUM` lexeme matchers (`extract.py`)

`_MONEY = (?:[\$£€]\s?\d[\d,]*(?:\.\d+)?\s*(?:million|billion|m|bn)?`
`          |\d[\d,]*(?:\.\d+)?\s*(?:million|billion|m|bn))`
`_PCT   = (?:\+|\-)?\d+(?:\.\d+)?\s?%`
`_NUM   = (?:\+|\-)?\d+(?:\.\d+)?`

Each matcher anchors at the head of its input and returns
`(consumed text, remainder)`. -/

/-- `(?:\.\d+)?` (greedy): a dot followed by at least one digit, or
nothing. -/
def matchFrac : List Char → List Char × List Char
  | '.' :: cs =>
    if (cs.takeWhile Char.isDigit).isEmpty then ([], '.' :: cs)
    else ('.' :: cs.takeWhile Char.isDigit, cs.dropWhile Char.isDigit)
  | cs => ([], cs)

/-- Magnitude suffixes in alternation order `million|billion|m|bn`. -/
def moneySuffixes : List (List Char) :=
  [String.toList "million", String.toList "billion", String.toList "m", String.toList "bn"]

/-- Ordered case-insensitive alternation over literal branches. -/
def matchAltCI (alts : List (List Char)) (l : List Char) : Option (List Char × List Char) :=
  match alts with
  | [] => none
  | a :: rest =>
    match stripCI a l with
    | some r => some r
    | none => matchAltCI rest l

/-- `\d[\d,]*(?:\.\d+)?\s*(?:million|billion|m|bn)?` — with the suffix
required when `reqSuffix` is true (the bare branch of `_MONEY`). -/
def moneyTail (reqSuffix : Bool) : List Char → Option (List Char × List Char)
  | [] => none
  | d :: cs =>
    if d.isDigit then
      let p1 := cs.span (fun c => c.isDigit || c == ',')
      let p2 := matchFrac p1.2
      let p3 := p2.2.span isSpaceCh
      match matchAltCI moneySuffixes p3.2 with
      | some (sf, r4) => some (d :: p1.1 ++ p2.1 ++ p3.1 ++ sf, r4)
      | none => if reqSuffix then none else some (d :: p1.1 ++ p2.1 ++ p3.1, p3.2)
    else none

/-- The currency branch `[\$£€]\s?\d[\d,]*(?:\.\d+)?\s*(?:...)?` of `_MONEY`. -/
def matchMoneyCur : List Char → Option (List Char × List Char)
  | [] => none
  | c :: cs =>
    if isCurrencyCh c then
      match cs with
      | s :: rest =>
        if isSpaceCh s then
          match moneyTail false rest with
          | some (g, r) => some (c :: s :: g, r)
          | none => (moneyTail false cs).map (fun a => (c :: a.1, a.2))
        else (moneyTail false cs).map (fun a => (c :: a.1, a.2))
      | [] => none
    else none

/-- `_MONEY` (currency branch first, per the alternation order). -/
def matchMoney (l : List Char) : Option (List Char × List Char) :=
  match matchMoneyCur l with
  | some r => some r
  | none => moneyTail true l

/-- `\d+(?:\.\d+)?\s?%` (the unsigned core of `_PCT`). -/
def matchPctCore : List Char → Option (List Char × List Char)
  | [] => none
  | d :: cs =>
    if d.isDigit then
      let p1 := cs.span Char.isDigit
      let p2 := matchFrac p1.2
      match p2.2 with
      | '%' :: r => some (d :: p1.1 ++ p2.1 ++ ['%'], r)
      | s :: '%' :: r =>
        if isSpaceCh s then some (d :: p1.1 ++ p2.1 ++ [s, '%'], r) else none
      | _ => none
    else none

/-- `_PCT`. -/
def matchPct : List Char → Option (List Char × List Char)
  | [] => none
  | c :: cs =>
    if c == '+' || c == '-' then (matchPctCore cs).map (fun a => (c :: a.1, a.2))
    else matchPctCore (c :: cs)

/-- `_NUM`. -/
def matchNum : List Char → Option (List Char × List Char)
  | [] => none
  | c :: cs =>
    if c == '+' || c == '-' then
      (matchNumCore cs).map (fun a => (c :: a.1, a.2))
    else matchNumCore (c :: cs)
where
  /-- `\d+(?:\.\d+)?`. -/
  matchNumCore : List Char → Option (List Char × List Char)
  | [] => none
  | d :: cs =>
    if d.isDigit then
      let p1 := cs.span Char.isDigit
      let p2 := matchFrac p1.2
      some (d :: p1.1 ++ p2.1, p2.2)
    else none

end IGWatch

namespace IGWatch

/-! ### Scanning combinators for `re.search` -/

/-- The lazy gap `[^.\n]*?` followed by a value matcher: try the value at the
current point first, then extend the gap one non-`.`/non-newline character at
a time.  Returns the value's captured text. -/
def gapScan (value : List Char → Option (List Char × List Char)) :
    List Char → Option (List Char)
  | [] =>
    match value [] with
    | some (g, _) => some g
    | none => none
  | c :: cs =>
    match value (c :: cs) with
    | some (g, _) => some g
    | none => if c == '.' || c == '\n' then none else gapScan value cs

/-- `re.search` for patterns of shape `LABEL[^.\n]*?(VALUE)`: try every start
position left to right; at each, match the label and then run the lazy gap
scan for the value. -/
def searchKV (label : List Char → Option (List Char))
    (value : List Char → Option (List Char × List Char)) :
    List Char → Option (List Char)
  | [] =>
    match label [] with
    | some rest => gapScan value rest
    | none => none
  | c :: cs =>
    match label (c :: cs) with
    | some rest =>
      match gapScan value rest with
      | some g => some g
      | none => searchKV label value cs
    | none => searchKV label value cs

/-- `re.search(pat, l)` for a bare lexeme: does the matcher succeed at any
start position? -/
def searchSome (m : List Char → Option (List Char × List Char)) : List Char → Bool
  | [] => (m []).isSome
  | c :: cs => (m (c :: cs)).isSome || searchSome m cs

/-- Case-insensitive substring test (`pat.lower() in text.lower()` and
`re.search` of a literal). `pat` is given lower-case. -/
def containsCI (pat : List Char) : List Char → Bool
  | [] => (stripCI pat []).isSome
  | c :: cs => (stripCI pat (c :: cs)).isSome || containsCI pat cs

/-- No-word-boundary test used for `\b`: the previous character (if any) is
not a word character. -/
def atBoundary : Option Char → Bool
  | none => true
  | some p => !(isWordCh p)

/-- One position of `\bALT\b`: ordered alternation where each branch must be
followed by a non-word character (or the end). -/
def wordAltHere (alts : List (List Char)) (l : List Char) : Bool :=
  alts.any fun a =>
    match stripCI a l with
    | some (_, r) =>
      match r with
      | [] => true
      | d :: _ => !(isWordCh d)
    | none => false

/-- `re.search(r"\b(a1|a2|...)\b", l, re.I)` for word alternatives (each
branch beginning and ending with a word character). -/
def searchWordAlt (alts : List (List Char)) : Option Char → List Char → Bool
  | prev, [] => atBoundary prev && wordAltHere alts []
  | prev, c :: cs =>
    (atBoundary prev && wordAltHere alts (c :: cs)) || searchWordAlt alts (some c) cs

end IGWatch

namespace IGWatch

example : (matchMoney (String.toList "$120.5 million, up")).map (fun a => String.mk a.1) =
    some "$120.5 million" := by decide

example : (matchMoney (String.toList "30.2 million extra")).map (fun a => String.mk a.1) =
    some "30.2 million" := by decide

example : matchMoney (String.toList "hello") = none := by decide

example : (matchPct (String.toList "12% YoY")).map (fun a => String.mk a.1) = some "12%" := by
  decide

example : searchSome matchMoney (String.toList "rev $5m here") = true := by decide

example : containsCI (String.toList "yoy") (String.toList "12% YOY later") = true := by decide

example : searchWordAlt [String.toList "uk"] none (String.toList "bucket uk sales") = true := by
  decide

example : searchWordAlt [String.toList "uk"] none (String.toList "bucket ukulele") = false := by
  decide

end IGWatch

namespace IGWatch

/-! ### `_extract_numbers` (`extract.py` lines 150-208) -/

/-- `(?:revenue|net sales|turnover)` (case-insensitive), returning the
remainder after the label. -/
def labelRevenue (l : List Char) : Option (List Char) :=
  match stripCI (String.toList "revenue") l with
  | some (_, r) => some r
  | none =>
    match stripCI (String.toList "net sales") l with
    | some (_, r) => some r
    | none => (stripCI (String.toList "turnover") l).map (fun a => a.2)

/-- `(?:revenue)` — the label of the revenue YoY pattern. -/
def labelRevenueOnly (l : List Char) : Option (List Char) :=
  (stripCI (String.toList "revenue") l).map (fun a => a.2)

/-- `(?:adjusted\s*)?ebitda` (case-insensitive). -/
def labelEbitda (l : List Char) : Option (List Char) :=
  match stripCI (String.toList "adjusted") l with
  | some (_, r) =>
    match stripCI (String.toList "ebitda") (r.dropWhile isSpaceCh) with
    | some (_, r2) => some r2
    | none => (stripCI (String.toList "ebitda") l).map (fun a => a.2)
  | none => (stripCI (String.toList "ebitda") l).map (fun a => a.2)

/-- `ebitda` — the label of the EBITDA YoY pattern. -/
def labelEbitdaOnly (l : List Char) : Option (List Char) :=
  (stripCI (String.toList "ebitda") l).map (fun a => a.2)

/-- `net\s+(?:income|profit)`. -/
def labelNetIncomeProfit (l : List Char) : Option (List Char) :=
  match stripCI (String.toList "net") l with
  | some (_, r) =>
    let sp := r.span isSpaceCh
    if sp.1.isEmpty then none
    else
      match stripCI (String.toList "income") sp.2 with
      | some (_, r2) => some r2
      | none => (stripCI (String.toList "profit") sp.2).map (fun a => a.2)
  | none => none

/-- `profit\s+after\s+tax`. -/
def labelProfitAfterTax (l : List Char) : Option (List Char) :=
  match stripCI (String.toList "profit") l with
  | some (_, r) =>
    let s1 := r.span isSpaceCh
    if s1.1.isEmpty then none
    else
      match stripCI (String.toList "after") s1.2 with
      | some (_, r2) =>
        let s2 := r2.span isSpaceCh
        if s2.1.isEmpty then none
        else (stripCI (String.toList "tax") s2.2).map (fun a => a.2)
      | none => none
  | none => none

/-- `(?:net\s+(?:income|profit)|profit\s+after\s+tax|loss)`. -/
def labelNetIncome (l : List Char) : Option (List Char) :=
  match labelNetIncomeProfit l with
  | some r => some r
  | none =>
    match labelProfitAfterTax l with
    | some r => some r
    | none => (stripCI (String.toList "loss") l).map (fun a => a.2)

/-- `(?:net\s+(?:income|profit)|loss)` — the label of the net-income YoY
pattern. -/
def labelNetIncomeYoy (l : List Char) : Option (List Char) :=
  match labelNetIncomeProfit l with
  | some r => some r
  | none => (stripCI (String.toList "loss") l).map (fun a => a.2)

/-- `(?:eps|earnings\s+per\s+share)`. -/
def labelEpsCore (l : List Char) : Option (List Char) :=
  match stripCI (String.toList "eps") l with
  | some (_, r) => some r
  | none =>
    match stripCI (String.toList "earnings") l with
    | some (_, r) =>
      let s1 := r.span isSpaceCh
      if s1.1.isEmpty then none
      else
        match stripCI (String.toList "per") s1.2 with
        | some (_, r2) =>
          let s2 := r2.span isSpaceCh
          if s2.1.isEmpty then none
          else (stripCI (String.toList "share") s2.2).map (fun a => a.2)
        | none => none
    | none => none

/-- `(?:diluted\s+)?(?:eps|earnings\s+per\s+share)`. -/
def labelEps (l : List Char) : Option (List Char) :=
  match stripCI (String.toList "diluted") l with
  | some (_, r) =>
    let s1 := r.span isSpaceCh
    if s1.1.isEmpty then labelEpsCore l
    else
      match labelEpsCore s1.2 with
      | some r2 => some r2
      | none => labelEpsCore l
  | none => labelEpsCore l

/-- `year[- ]over[- ]year` (case-insensitive). -/
def matchYearOverYear (l : List Char) : Bool :=
  match stripCI (String.toList "year") l with
  | some (_, r) =>
    match r with
    | c :: r2 =>
      (c == '-' || c == ' ') &&
      (match stripCI (String.toList "over") r2 with
       | some (_, r3) =>
         match r3 with
         | d :: r4 => (d == '-' || d == ' ') && (stripCI (String.toList "year") r4).isSome
         | [] => false
       | none => false)
    | [] => false
  | none => false

/-- `vs\.?\s*prior` (case-insensitive). -/
def matchVsPrior (l : List Char) : Bool :=
  match stripCI (String.toList "vs") l with
  | some (_, r) =>
    (match r with
     | '.' :: r2 => (stripCI (String.toList "prior") (r2.dropWhile isSpaceCh)).isSome
     | _ => false)
    || (stripCI (String.toList "prior") (r.dropWhile isSpaceCh)).isSome
  | none => false

/-- `\s*(?:yoy|year[- ]over[- ]year|vs\.?\s*prior)` — the tail that must
follow the captured percentage in every YoY pattern. -/
def yoyPhrase (l : List Char) : Bool :=
  let r := l.dropWhile isSpaceCh
  (stripCI (String.toList "yoy") r).isSome || matchYearOverYear r || matchVsPrior r

/-- `(PCT){1}\s*(?:yoy|year[- ]over[- ]year|vs\.?\s*prior)` as a value
matcher: the percentage is captured only when the explicit year-over-year
phrase follows it. -/
def pctYoy (l : List Char) : Option (List Char × List Char) :=
  match matchPct l with
  | some (g, r) => if yoyPhrase r then some (g, r) else none
  | none => none

/-- One tracked metric; `extract.py` represents a missing value by the
sentinels `"Not found"` / `"n/a"`, never by omission. -/
structure Metric where
  current : List Char := String.toList "Not found"
  prior : List Char := String.toList "Not found"
  yoy : List Char := String.toList "n/a"
deriving Repr, DecidableEq

/-- Result record of `_extract_numbers`. -/
structure ExtractOut where
  revenue : Metric := {}
  ebitda : Metric := {}
  net_income : Metric := {}
  eps : Metric := {}
  geo_breakdown : List (List Char) := []
  product_breakdown : List (List Char) := []
  controversial_points : List (List Char) := []
deriving Repr, DecidableEq

/-- Geography vocabulary
`\b(US|USA|UK|Europe|EU|Canada|Australia|LatAm|LATAM|North America|Asia|MEA)\b`. -/
def geoWords : List (List Char) :=
  [String.toList "us", String.toList "usa", String.toList "uk", String.toList "europe",
   String.toList "eu", String.toList "canada", String.toList "australia",
   String.toList "latam", String.toList "latam", String.toList "north america",
   String.toList "asia", String.toList "mea"]

/-- Product vocabulary
`\b(OSB|Sportsbook|iCasino|Casino|Gaming|Lottery|Media|B2B|B2C)\b`. -/
def productWords : List (List Char) :=
  [String.toList "osb", String.toList "sportsbook", String.toList "icasino",
   String.toList "casino", String.toList "gaming", String.toList "lottery",
   String.toList "media", String.toList "b2b", String.toList "b2c"]

/-- Controversy stems scanned with `\bkw\b` (case-insensitive). -/
def controversyWords : List (List Char) :=
  [String.toList "investigation", String.toList "fine", String.toList "penalty",
   String.toList "sanction", String.toList "lawsuit", String.toList "restatement"]

/-- The per-line breakdown classification of `_extract_numbers`: a line under
221 normalised characters, containing a percentage or money token, not
mentioning buybacks, lands in the geography and/or product lists when it has
a vocabulary word. -/
def breakdownStep (acc : List (List Char) × List (List Char)) (line : List Char) :
    List (List Char) × List (List Char) :=
  let ln := norm line
  if ln.length > 220 then acc
  else if !(searchSome matchPct line || searchSome matchMoney line) then acc
  else if containsCI (String.toList "buyback") ln || containsCI (String.toList "repurchase") ln then acc
  else
    let acc1 := if searchWordAlt geoWords none ln then (acc.1 ++ [ln], acc.2) else acc
    if searchWordAlt productWords none ln then (acc1.1, acc1.2 ++ [ln]) else acc1

/-- `_extract_numbers(text)`: each KPI searched over the first 6000
characters; YoY only via the explicit phrase patterns; breakdown lines and
controversy stems appended in document order. -/
def extract_numbers (text : List Char) : ExtractOut :=
  let t := text.take 6000
  let revCur := searchKV labelRevenue matchMoney t
  let revYoy := searchKV labelRevenueOnly pctYoy t
  let ebCur := searchKV labelEbitda matchMoney t
  let ebYoy := searchKV labelEbitdaOnly pctYoy t
  let niCur := searchKV labelNetIncome matchMoney t
  let niYoy := searchKV labelNetIncomeYoy pctYoy t
  let epsCur := searchKV labelEps matchNum t
  let epsYoy := searchKV labelEpsCore pctYoy t
  let bks := (pySplitlines t).foldl breakdownStep ([], [])
  let contro := controversyWords.foldl
    (fun acc kw =>
      if searchWordAlt [kw] none t then
        acc ++ [String.toList "Mentions: " ++ kw]
      else acc) []
  { revenue := { current := (revCur.map norm).getD (String.toList "Not found"),
                 yoy := (revYoy.map norm).getD (String.toList "n/a") }
    ebitda := { current := (ebCur.map norm).getD (String.toList "Not found"),
                yoy := (ebYoy.map norm).getD (String.toList "n/a") }
    net_income := { current := (niCur.map norm).getD (String.toList "Not found"),
                    yoy := (niYoy.map norm).getD (String.toList "n/a") }
    eps := { current := (epsCur.map norm).getD (String.toList "Not found"),
             yoy := (epsYoy.map norm).getD (String.toList "n/a") }
    geo_breakdown := bks.1
    product_breakdown := bks.2
    controversial_points := contro }

end IGWatch

namespace IGWatch

/-! ### `detect_period_key` (`app/utils/text.py` lines 67-88) -/

/-- `\b` on the right edge of a token ending in a word character: the next
character is absent or not a word character. -/
def nextNonWord : List Char → Bool
  | [] => true
  | d :: _ => !(isWordCh d)

/-- `20\d{2}`. -/
def matchYear : List Char → Option (List Char × List Char)
  | '2' :: '0' :: a :: b :: rest =>
    if a.isDigit && b.isDigit then some (['2', '0', a, b], rest) else none
  | _ => none

/-- Generic `re.search` position scan for a pattern starting at a `\b`
boundary with a word character. -/
def scanPat {α : Type} (pat : List Char → Option α) : Option Char → List Char → Option α
  | prev, [] => if atBoundary prev then pat [] else none
  | prev, c :: cs =>
    match (if atBoundary prev then pat (c :: cs) else none) with
    | some r => some r
    | none => scanPat pat (some c) cs

/-- `q([1-4])\s*(20\d{2})\b` at one position (the text is already
lower-cased). -/
def p1Here : List Char → Option (Char × List Char)
  | 'q' :: q :: rest =>
    if q == '1' || q == '2' || q == '3' || q == '4' then
      match matchYear (rest.dropWhile isSpaceCh) with
      | some (y, r2) => if nextNonWord r2 then some (q, y) else none
      | none => none
    else none
  | _ => none

/-- `(20\d{2})\s*q([1-4])\b` at one position. -/
def p2Here (l : List Char) : Option (List Char × Char) :=
  match matchYear l with
  | some (y, r) =>
    match r.dropWhile isSpaceCh with
    | 'q' :: q :: r2 =>
      if (q == '1' || q == '2' || q == '3' || q == '4') && nextNonWord r2 then some (y, q)
      else none
    | _ => none
  | none => none

/-- `ORDINAL\s+quarter\s+(20\d{2})\b` for one spelled ordinal; returns the
quarter digit and the year. -/
def p3Ordinal (w : List Char) (q : Char) (l : List Char) : Option (Char × List Char) :=
  match stripCI w l with
  | some (_, r) =>
    let s1 := r.span isSpaceCh
    if s1.1.isEmpty then none
    else
      match stripCI (String.toList "quarter") s1.2 with
      | some (_, r2) =>
        let s2 := r2.span isSpaceCh
        if s2.1.isEmpty then none
        else
          match matchYear s2.2 with
          | some (y, r3) => if nextNonWord r3 then some (q, y) else none
          | none => none
      | none => none
  | none => none

/-- `(first|second|third|fourth)\s+quarter\s+(20\d{2})\b` at one position. -/
def p3Here (l : List Char) : Option (Char × List Char) :=
  match p3Ordinal (String.toList "first") '1' l with
  | some r => some r
  | none =>
    match p3Ordinal (String.toList "second") '2' l with
    | some r => some r
    | none =>
      match p3Ordinal (String.toList "third") '3' l with
      | some r => some r
      | none => p3Ordinal (String.toList "fourth") '4' l

/-- `.*?(20\d{2})`: lazy gap over non-newline characters, then a year. -/
def lazyYearScan : List Char → Option (List Char)
  | [] => none
  | c :: cs =>
    match matchYear (c :: cs) with
    | some (y, _) => some y
    | none => if c == '\n' then none else lazyYearScan cs

/-- The mojibake dash class `[â€“-]` of the `interim report` pattern. -/
def isInterimDash (c : Char) : Bool :=
  c == 'â' || c == '€' || c == '“' || c == '-'

/-- The optional suffix `(?:\s+january\s*[â€“-]\s*june)?` after
`interim report`. -/
def interimSuffix (l : List Char) : Option (List Char) :=
  let s1 := l.span isSpaceCh
  if s1.1.isEmpty then none
  else
    match stripCI (String.toList "january") s1.2 with
    | some (_, r) =>
      match r.dropWhile isSpaceCh with
      | c :: r2 =>
        if isInterimDash c then
          (stripCI (String.toList "june") (r2.dropWhile isSpaceCh)).map (fun a => a.2)
        else none
      | [] => none
    | none => none

/-- A half-year/FY token branch `TOKEN\b.*?(20\d{2})` at one position. -/
def tokenYear (tok : List Char) (l : List Char) : Option (List Char) :=
  match stripCI tok l with
  | some (_, r) => if nextNonWord r then lazyYearScan r else none
  | none => none

/-- `(h1|first half|interim report(?:\s+january\s*[â€“-]\s*june)?)\b.*?(20\d{2})`
at one position, with the greedy optional suffix tried first and dropped on
failure, as the backtracking engine does. -/
def h1Here (l : List Char) : Option (List Char) :=
  match tokenYear (String.toList "h1") l with
  | some y => some y
  | none =>
    match tokenYear (String.toList "first half") l with
    | some y => some y
    | none =>
      match stripCI (String.toList "interim report") l with
      | some (_, r0) =>
        match interimSuffix r0 with
        | some r1 =>
          match (if nextNonWord r1 then lazyYearScan r1 else none) with
          | some y => some y
          | none => if nextNonWord r0 then lazyYearScan r0 else none
        | none => if nextNonWord r0 then lazyYearScan r0 else none
      | none => none

/-- `(h2|second half)\b.*?(20\d{2})` at one position. -/
def h2Here (l : List Char) : Option (List Char) :=
  match tokenYear (String.toList "h2") l with
  | some y => some y
  | none => tokenYear (String.toList "second half") l

/-- `(fy|full year)\b.*?(20\d{2})` at one position. -/
def fyHere (l : List Char) : Option (List Char) :=
  match tokenYear (String.toList "fy") l with
  | some y => some y
  | none => tokenYear (String.toList "full year") l

/-- `detect_period_key(title, text)`: the patterns are tried in strict
priority order over `f"{title}\n{text}".lower()`; the first match wins. -/
def detect_period_key (title text : List Char) : Option (List Char) :=
  let s := lowerL (title ++ '\n' :: text)
  match scanPat p1Here none s with
  | some (q, y) => some (y ++ '-' :: 'Q' :: [q])
  | none =>
    match scanPat p2Here none s with
    | some (y, q) => some (y ++ '-' :: 'Q' :: [q])
    | none =>
      match scanPat p3Here none s with
      | some (q, y) => some (y ++ '-' :: 'Q' :: [q])
      | none =>
        match scanPat h1Here none s with
        | some y => some (y ++ String.toList "-H1")
        | none =>
          match scanPat h2Here none s with
          | some y => some (y ++ String.toList "-H2")
          | none =>
            match scanPat fyHere none s with
            | some y => some (y ++ String.toList "-FY")
            | none => none

end IGWatch

namespace IGWatch

/-! ### Domain policy helpers (`extract.py` lines 53-82) -/

/-- Exact literal prefix; returns the remainder. -/
def dropLit : List Char → List Char → Option (List Char)
  | [], t => some t
  | _ :: _, [] => none
  | p :: ps, c :: cs => if c == p then dropLit ps cs else none

/-- `urlparse`: remove a leading `scheme:` when the URL has one. -/
def splitSchemeRest (u : List Char) : List Char :=
  match u with
  | [] => []
  | c :: cs =>
    if c.isAlpha then
      let sp := cs.span (fun d => d.isAlphanum || d == '+' || d == '-' || d == '.')
      match sp.2 with
      | ':' :: r => r
      | _ => u
    else u

/-- `urlparse(u).netloc`: present only after `//`, ended by `/`, `?` or `#`. -/
def netlocOf (u : List Char) : List Char :=
  match splitSchemeRest u with
  | '/' :: '/' :: r => r.takeWhile (fun c => c != '/' && c != '?' && c != '#')
  | _ => []

/-- `_host(u) = urlparse(u).netloc.split(":")[0].lower()`. -/
def hostOf (u : List Char) : List Char :=
  lowerL ((netlocOf u).takeWhile (fun c => c != ':'))

/-- `is_blocked_domain(url)`: the resolved host equals a blocked domain or is
a subdomain of one (`netloc.endswith("." + d)`). -/
def is_blocked_domain (blockDomains : List (List Char)) (url : List Char) : Bool :=
  let n := hostOf url
  if n.isEmpty then false
  else blockDomains.any (fun d => n == d || ('.' :: d).isSuffixOf n)

/-- Subdomain prefixes of the first-party pattern
`^(ir|investor|investors|corporate|press|media)\.\w[\w.-]*`. -/
def firstPartyPrefixes : List (List Char) :=
  [String.toList "ir", String.toList "investor", String.toList "investors",
   String.toList "corporate", String.toList "press", String.toList "media"]

/-- One branch of the first-party prefix regex: the literal, a dot, then at
least one word character (`[\w.-]*` then matches vacuously). -/
def fpHere (p : List Char) (host : List Char) : Bool :=
  match dropLit p host with
  | some ('.' :: d :: _) => isWordCh d
  | _ => false

/-- `_is_wire_or_first_party(host)`. -/
def is_wire_or_first_party (goodWire : List (List Char)) (host : List Char) : Bool :=
  if host.isEmpty then false
  else
    (host ∈ goodWire || goodWire.any (fun d => ('.' :: d).isSuffixOf host)) ||
    firstPartyPrefixes.any (fun p => fpHere p host)

/-- Default `JUNK_DOMAINS` from `extract.py`. -/
def JUNK_DOMAINS : List (List Char) :=
  [String.toList "tipranks.com", String.toList "seekingalpha.com", String.toList "fool.com",
   String.toList "benzinga.com", String.toList "marketwatch.com",
   String.toList "investing.com", String.toList "yahoo.com"]

/-- `_is_junk_domain(host)`. -/
def is_junk_domain (junk : List (List Char)) (host : List Char) : Bool :=
  host ∈ junk || junk.any (fun d => ('.' :: d).isSuffixOf host)

/-! ### `_extract_highlights` (`extract.py` lines 214-249) -/

/-- `SPAM_PHRASES`, lower-cased as the membership test does. -/
def spamPhrases : List (List Char) :=
  [String.toList "tipranks", String.toList "premium", String.toList "subscribe",
   String.toList "sponsored", String.toList "advert", String.toList "coupon",
   String.toList "sign up", String.toList "click", String.toList "follow us",
   String.toList "read more"]

/-- KPI keywords `\b(revenue|ebitda|profit|loss|eps|guidance)\b`. -/
def kpiWords : List (List Char) :=
  [String.toList "revenue", String.toList "ebitda", String.toList "profit",
   String.toList "loss", String.toList "eps", String.toList "guidance"]

/-- Trusted-tier (`<li>`) candidate filter: normalised length in `[25, 220]`,
no spam phrase, and a percentage, money token or KPI keyword. -/
def qualifyTrusted (raw : List Char) : Option (List Char) :=
  let t := norm raw
  if !(25 ≤ t.length && t.length ≤ 220) then none
  else if spamPhrases.any (fun p => containsCI p t) then none
  else if searchSome matchPct t || searchSome matchMoney t ||
      searchWordAlt kpiWords none t then some t
  else none

/-- Untrusted-tier (paragraph) candidate filter: as above but the content
test accepts only a percentage or money token. -/
def qualifyUntrusted (raw : List Char) : Option (List Char) :=
  let t := norm raw
  if !(25 ≤ t.length && t.length ≤ 220) then none
  else if spamPhrases.any (fun p => containsCI p t) then none
  else if searchSome matchPct t || searchSome matchMoney t then some t
  else none

/-- The element texts of the chosen article root: `li.get_text(" ", strip=True)`
and `p.get_text(" ", strip=True)` in document order, plus
`article_root.get_text("\n")`.  The BeautifulSoup tree traversal itself is
modelled by these extracted text lists. -/
structure ArticleRoot where
  liTexts : List (List Char) := []
  pTexts : List (List Char) := []
  rootText : List Char := []
deriving Repr, DecidableEq

/-- The candidate list of `_extract_highlights` before dedup/cap: `<li>` texts
on a wire or first-party host that is not junk-listed, paragraph texts
otherwise. -/
def highlightCandidates (goodWire junk : List (List Char)) (root : ArticleRoot)
    (host : List Char) : List (List Char) :=
  if is_wire_or_first_party goodWire host && !(is_junk_domain junk host) then
    root.liTexts.filterMap qualifyTrusted
  else
    root.pTexts.filterMap qualifyUntrusted

/-- The dedup-and-cap loop of `_extract_highlights`: case-insensitive
first-seen dedup, breaking once the output reaches 8 entries (the entry that
reaches 8 is appended before the break). -/
def dedupCapGo : List (List Char) → List (List Char) → List (List Char) → List (List Char)
  | _, out, [] => out.reverse
  | seen, out, h :: hs =>
    if lowerL h ∈ seen then dedupCapGo seen out hs
    else if out.length + 1 ≥ 8 then (h :: out).reverse
    else dedupCapGo (lowerL h :: seen) (h :: out) hs

/-- Dedup and cap, as applied to the candidate list. -/
def dedupCap (l : List (List Char)) : List (List Char) := dedupCapGo [] [] l

/-- `_extract_highlights(article_root, host)`. -/
def extract_highlights (goodWire junk : List (List Char)) (root : ArticleRoot)
    (host : List Char) : List (List Char) :=
  dedupCap (highlightCandidates goodWire junk root host)

end IGWatch

namespace IGWatch

/-! ### `fetch_and_summarize` and URL resolution (`extract.py` lines 100-144,
252-341)

The HTTP response is modelled after the proxy `GET` has succeeded (the
`SCRAPING_API_KEY` guard and `raise_for_status()` sit before everything the
checked properties concern).  HTML parsing (`BeautifulSoup`) is modelled
structurally: a document is its canonical link, `og:url` value, headline text
and article-root texts. -/

/-- A parsed HTML document (the fields `_canonical_from_html` and
`_summarize_html` read). `canonicalHref`/`ogUrl` are `some v` when the
element exists with the attribute set (possibly to an empty, falsy value). -/
structure HtmlDoc where
  canonicalHref : Option (List Char) := none
  ogUrl : Option (List Char) := none
  headlineText : Option (List Char) := none
  root : ArticleRoot := {}
deriving Repr, DecidableEq

/-- `_canonical_from_html`: canonical `<link>` first, then `og:url`; the
attribute value is stripped, and an absent-or-falsy attribute falls through. -/
def canonical_from_html (doc : HtmlDoc) : Option (List Char) :=
  match doc.canonicalHref with
  | some h => if h.isEmpty then ogBranch doc else some (pyStrip h)
  | none => ogBranch doc
where
  /-- The `og:url` fallback. -/
  ogBranch (doc : HtmlDoc) : Option (List Char) :=
    match doc.ogUrl with
    | some o => if o.isEmpty then none else some (pyStrip o)
    | none => none

/-- Case-insensitive header lookup (`requests` headers dictionary). -/
def headerGet (hs : List (List Char × List Char)) (k : List Char) : Option (List Char) :=
  (hs.find? (fun kv => lowerL kv.1 == lowerL k)).map (fun kv => kv.2)

/-- The proxy final-URL header probe: first of `X-ScraperAPI-Final-Url`,
`X-Final-Url`, `X-Target-Url` with a truthy value. -/
def headerFinalUrl (hs : List (List Char × List Char)) : Option (List Char) :=
  [String.toList "X-ScraperAPI-Final-Url", String.toList "X-Final-Url",
   String.toList "X-Target-Url"].findSome? fun k =>
    match headerGet hs k with
    | some v => if v.isEmpty then none else some v
    | none => none

/-- Hexadecimal digit value. -/
def hexVal (c : Char) : Option Nat :=
  let n := c.toNat
  if 48 ≤ n ∧ n ≤ 57 then some (n - 48)
  else if 97 ≤ n ∧ n ≤ 102 then some (n - 87)
  else if 65 ≤ n ∧ n ≤ 70 then some (n - 55)
  else none

/-- `urllib.parse.unquote_plus` on the ASCII range: `+` to space, `%XX` to
the byte value (multi-byte UTF-8 sequences are out of the model's scope). -/
def unquotePlus : List Char → List Char
  | [] => []
  | '+' :: r => ' ' :: unquotePlus r
  | '%' :: a :: b :: r =>
    match hexVal a, hexVal b with
    | some x, some y => Char.ofNat (16 * x + y) :: unquotePlus r
    | _, _ => '%' :: unquotePlus (a :: b :: r)
  | c :: r => c :: unquotePlus r

/-- `urlparse(u).query`: after the first `?` of the pre-fragment part. -/
def queryOf (u : List Char) : List Char :=
  let pre := u.takeWhile (fun c => c != '#')
  match pre.span (fun c => c != '?') with
  | (_, _ :: q) => q
  | (_, []) => []

/-- `parse_qs(query).get("url", [None])[0]`: the first `url=`-pair whose
decoded value is non-empty (`parse_qs` drops blank values). -/
def parseQsUrlParam (q : List Char) : Option (List Char) :=
  (q.splitOn '&').findSome? fun pair =>
    match pair.span (fun c => c != '=') with
    | (name, _ :: value) =>
      if unquotePlus name == String.toList "url" && !(unquotePlus value).isEmpty then
        some (unquotePlus value)
      else none
    | (_, []) => none

/-- `_final_url_from_response(r, request_url, html)`. -/
def final_url_from_response (headers : List (List Char × List Char))
    (request_url : List Char) (html : Option HtmlDoc) : List Char :=
  match headerFinalUrl headers with
  | some v => v
  | none =>
    let canOk : Option (List Char) :=
      match html with
      | some doc =>
        match canonical_from_html doc with
        | some c => if c.isEmpty then none else some c
        | none => none
      | none => none
    if (String.toList "news.google.com").isSuffixOf (hostOf request_url) then
      match canOk with
      | some c => c
      | none =>
        match parseQsUrlParam (queryOf request_url) with
        | some u => u
        | none =>
          match canOk with
          | some c => c
          | none => request_url
    else
      match canOk with
      | some c => c
      | none => request_url

/-- Configuration knobs read by `extract.py` (module globals sourced from
`config.py` / the environment). -/
structure Cfg where
  blockDomains : List (List Char) := []
  goodWireDomains : List (List Char) := []
  junkDomains : List (List Char) := JUNK_DOMAINS
  firstPartyOnly : Bool := false

/-- The summary payload returned by `_summarize_html` / `_summarize_pdf`
(`**data` is carried as the `metrics` field). -/
structure Payload where
  headline : List Char
  short_summary : List Char
  key_highlights : List (List Char)
  final_url : List Char
  metrics : ExtractOut
  final_thoughts : List Char
deriving Repr, DecidableEq

/-- `_summarize_html(url, html)`. -/
def summarize_html (cfg : Cfg) (url : List Char) (doc : HtmlDoc) : Payload :=
  let headline := (doc.headlineText.map norm).getD []
  let paras := (doc.root.pTexts.map norm).filter (fun p => 40 < p.length)
  let summary := List.intercalate [' '] (paras.take 3)
  let host := hostOf url
  { headline := if headline.isEmpty then String.toList "Earnings/Results" else headline
    short_summary :=
      if summary.isEmpty then String.toList "Press release / results page" else summary
    key_highlights := extract_highlights cfg.goodWireDomains cfg.junkDomains doc.root host
    final_url := url
    metrics := extract_numbers doc.root.rootText
    final_thoughts := String.toList "Auto-extracted; verify against release/PDF if critical." }

/-- `_summarize_pdf(url, text)`. -/
def summarize_pdf (url : List Char) (text : List Char) : Payload :=
  { headline := String.toList "Results presentation / PDF"
    short_summary := String.toList "Key figures extracted from PDF."
    key_highlights := []
    final_url := url
    metrics := extract_numbers text
    final_thoughts := String.toList "PDF-only parse; verify against press release for context." }

/-- A proxy response after `raise_for_status()`: its headers, the parse of
`r.text`, and the outcome of `pdfminer`'s `extract_text(BytesIO(r.content))`
on the PDF branch — `some text` when extraction succeeds, `none` when it
raises on malformed content (the source wraps it in no `try`/`except`). -/
structure HttpResponse where
  headers : List (List Char × List Char) := []
  html : HtmlDoc := {}
  pdfText : Option (List Char) := none
deriving Repr, DecidableEq

/-- Whether the response is routed to the PDF branch. -/
def isPdfResponse (request_url : List Char) (r : HttpResponse) : Bool :=
  let ctype := lowerL ((headerGet r.headers (String.toList "Content-Type")).getD [])
  containsCI (String.toList "application/pdf") ctype ||
    (String.toList ".pdf").isSuffixOf (lowerL request_url)

/-- `fetch_and_summarize(request_url)` given the proxy response: the PDF or
HTML branch resolves `final_url`, applies the blocked-domain check to it,
then the first-party policy (HTML branch), then summarizes.  The result is
layered: `.ok none` is the deliberate `return None` skip, `.ok (some p)` a
payload, and `.error ()` an exception escaping the function — which happens
exactly when the PDF branch's text extraction fails, since the source runs
`extract_text` before the blocked-domain check with no `try`/`except`.  The
junk-domain test at the end of the HTML branch only logs and is
behaviourally inert. -/
def fetch_and_summarize (cfg : Cfg) (request_url : List Char) (r : HttpResponse) :
    Except Unit (Option Payload) :=
  if isPdfResponse request_url r then
    let final_url := final_url_from_response r.headers request_url none
    match r.pdfText with
    | none => .error ()
    | some text =>
      if is_blocked_domain cfg.blockDomains final_url then .ok none
      else .ok (some (summarize_pdf final_url text))
  else
    let final_url := final_url_from_response r.headers request_url (some r.html)
    if is_blocked_domain cfg.blockDomains final_url then .ok none
    else
      let host := hostOf final_url
      if cfg.firstPartyOnly && !(is_wire_or_first_party cfg.goodWireDomains host) then .ok none
      else .ok (some (summarize_html cfg final_url r.html))

deriving instance DecidableEq for Except

end IGWatch

namespace IGWatch

/-! ### The dedup store (`app/utils/state.py`)

`json.dumps(sorted(seen), ensure_ascii=False)` and `json.loads` are modelled
for the document shapes the store reads and writes: JSON arrays of strings
and `{"seen": [...]}` objects (on any other JSON payload the Python code
ends up with an empty set, via the unexpected-structure branch or the caught
decode error, and the model's parser failure maps to the same empty set). -/

/-- Lower-case hexadecimal digit. -/
def hexDigitCh (n : Nat) : Char := (String.toList "0123456789abcdef").getD n '0'

/-- `json.dumps` escaping of one character with `ensure_ascii=False`:
backslash, quote and the C0 controls only. -/
def escChar (c : Char) : List Char :=
  if c = '"' then ['\\', '"']
  else if c = '\\' then ['\\', '\\']
  else if c = '\n' then ['\\', 'n']
  else if c = '\x0d' then ['\\', 'r']
  else if c = '\t' then ['\\', 't']
  else if c = '\x08' then ['\\', 'b']
  else if c = '\x0c' then ['\\', 'f']
  else if 0x20 ≤ c.toNat then [c]
  else '\\' :: 'u' :: '0' :: '0' :: hexDigitCh (c.toNat / 16) :: [hexDigitCh (c.toNat % 16)]

/-- Escape a whole string body. -/
def escapeStr (s : List Char) : List Char := (s.map escChar).flatten

/-- A JSON string literal. -/
def strLit (s : List Char) : List Char := '"' :: escapeStr s ++ ['"']

/-- The comma-separated element text of a dumped array (separator `", "`). -/
def elemsText : List (List Char) → List Char
  | [] => []
  | [x] => strLit x
  | x :: xs => strLit x ++ ',' :: ' ' :: elemsText xs

/-- `json.dumps` of a list of strings. -/
def dumps (l : List (List Char)) : List Char := '[' :: elemsText l ++ [']']

/-- JSON inter-token whitespace: space, TAB, LF, CR. -/
def isJsonWs (c : Char) : Bool := [32, 9, 10, 13].contains c.toNat

/-- Skip JSON whitespace. -/
def skipWs (l : List Char) : List Char := l.dropWhile isJsonWs

/-- The one-character JSON escapes as (escape letter, decoded char) pairs. -/
def escPairs : List (Char × Char) :=
  [('"', '"'), ('\\', '\\'), ('/', '/'), ('n', '\n'), ('t', '\t'),
   ('r', '\x0d'), ('b', '\x08'), ('f', '\x0c')]

/-- Decode a one-character JSON escape via the pair table. -/
def escDecode (e : Char) : Option Char :=
  (escPairs.find? (fun pr => pr.1 == e)).map (fun pr => pr.2)

/-- Parse a JSON string body after the opening quote, up to and including the
closing quote (surrogate pairs are outside the model: the serializer being
inverted never emits them). -/
def parseStrBody : List Char → Option (List Char × List Char)
  | [] => none
  | '"' :: rest => some ([], rest)
  | '\\' :: 'u' :: q1 :: q2 :: q3 :: q4 :: tl =>
    match hexVal q1, hexVal q2, hexVal q3, hexVal q4 with
    | some v1, some v2, some v3, some v4 =>
      let n := ((v1 * 16 + v2) * 16 + v3) * 16 + v4
      if n < 0xd800 || 0xe000 ≤ n then
        (parseStrBody tl).map (fun p => (Char.ofNat n :: p.1, p.2))
      else none
    | _, _, _, _ => none
  | '\\' :: e :: rest =>
    match escDecode e with
    | some c => (parseStrBody rest).map (fun p => (c :: p.1, p.2))
    | none => none
  | c :: rest => (parseStrBody rest).map (fun p => (c :: p.1, p.2))

/-- A quoted JSON string literal. -/
def parseStringLit : List Char → Option (List Char × List Char)
  | '"' :: rest => parseStrBody rest
  | _ => none

end IGWatch

namespace IGWatch

/-- The element loop of the array parser, fuelled by the input length: each
iteration consumes at least the two quotes of a string literal, so the fuel
`l.length` supplied by `parseArrayCore` never runs out first. -/
def parseElemsF : Nat → List Char → Option (List (List Char) × List Char)
  | 0, _ => none
  | fuel + 1, l =>
    match parseStringLit l with
    | none => none
    | some (s, r1) =>
      match skipWs r1 with
      | ']' :: rest => some ([s], rest)
      | ',' :: rest => (parseElemsF fuel (skipWs rest)).map (fun p => (s :: p.1, p.2))
      | _ => none

/-- A JSON array of strings starting at `[`; returns the remainder. -/
def parseArrayCore (l : List Char) : Option (List (List Char) × List Char) :=
  match l with
  | '[' :: r =>
    match skipWs r with
    | ']' :: rest => some ([], rest)
    | r2 => parseElemsF r2.length r2
  | _ => none

/-- `json.loads` on a whole document that is a JSON array of strings. -/
def parseStrArray (l : List Char) : Option (List (List Char)) :=
  match parseArrayCore (skipWs l) with
  | some (xs, rest) => if (skipWs rest).isEmpty then some xs else none
  | none => none

/-- `json.loads` on a whole document of the shape `{"seen": [...]}` (the
object fallback `State._load` recognises). -/
def parseSeenObj (l : List Char) : Option (List (List Char)) :=
  match skipWs l with
  | '{' :: r =>
    match parseStringLit (skipWs r) with
    | some (k, r1) =>
      if k = String.toList "seen" then
        match skipWs r1 with
        | ':' :: r2 =>
          match parseArrayCore (skipWs r2) with
          | some (xs, r3) =>
            match skipWs r3 with
            | '}' :: r4 => if (skipWs r4).isEmpty then some xs else none
            | _ => none
          | none => none
        | _ => none
      else none
    | none => none
  | _ => none

/-- `State._load` on decoded file text: empty file and all-whitespace file
start empty; a file whose first stripped character is `[`, `{` or `}` goes
through JSON parsing (any parse failure or unexpected structure starts
empty, as the Python `except`/`else` branches do); anything else is legacy
newline-delimited text whose blank lines are dropped. -/
def loadSeen (content : List Char) : List (List Char) :=
  if content.isEmpty then []
  else
    let raw := pyStrip content
    if raw.isEmpty then []
    else if raw.head? == some '[' || raw.head? == some '{' || raw.head? == some '}' then
      match parseStrArray raw with
      | some xs => xs
      | none =>
        match parseSeenObj raw with
        | some xs => xs
        | none => []
    else
      (pySplitlines raw).filter (fun x => !(pyStrip x).isEmpty)

/-- `State.has(key)`: membership in the in-memory set. -/
def stateHas (seen : List (List Char)) (k : List Char) : Bool := decide (k ∈ seen)

/-- `State.add(key)`: the set after inserting `key` (sets are modelled by
their membership, duplicates are not re-added). -/
def stateAdd (seen : List (List Char)) (k : List Char) : List (List Char) :=
  if k ∈ seen then seen else k :: seen

/-- Python string comparison (lexicographic on code points), as `sorted`
uses. -/
def charListLt : List Char → List Char → Bool
  | _, [] => false
  | [], _ :: _ => true
  | x :: xs, y :: ys =>
    if x.toNat = y.toNat then charListLt xs ys else decide (x.toNat < y.toNat)

/-- Insertion into a sorted list. -/
def insertSorted (x : List Char) : List (List Char) → List (List Char)
  | [] => [x]
  | y :: ys => if charListLt x y then x :: y :: ys else y :: insertSorted x ys

/-- `sorted(...)` on distinct strings. -/
def sortLC (l : List (List Char)) : List (List Char) := l.foldr insertSorted []

/-- The exact text `State.save` writes:
`json.dumps(sorted(self._seen), ensure_ascii=False)` plus a newline. -/
def saveContent (seen : List (List Char)) : List Char :=
  dumps (sortLC seen.dedup) ++ ['\n']

/-- Snapshot of the two files `State.save` touches. -/
structure FsState where
  tmpFile : Option (List Char)
  target : Option (List Char)
deriving Repr, DecidableEq

/-- The step sequence of `State.save` under interruption: create the
temporary file, write the serialized set into it one character at a time,
then atomically rename it over the target.  `prior` is whatever the target
path held before the save. -/
def saveSteps (prior : Option (List Char)) (seen : List (List Char)) : List FsState :=
  let data := saveContent seen
  { tmpFile := none, target := prior } ::
    ((List.range (data.length + 1)).map
      (fun k => { tmpFile := some (data.take k), target := prior })) ++
    [{ tmpFile := none, target := some data }]

end IGWatch

namespace IGWatch

/-- A newline-delimited legacy state file holding the given entries. -/
def pyJoinNL : List (List Char) → List Char
  | [] => []
  | [e] => e
  | e :: es => e ++ '\n' :: pyJoinNL es

end IGWatch

namespace IGWatch

/-- `MAX_HIGHLIGHTS = int(os.getenv("MAX_HIGHLIGHTS", "6"))` from
`config.py`; `_extract_highlights` never reads it — its cap is the literal 8
in the dedup loop. -/
def MAX_HIGHLIGHTS : Nat := 6

end IGWatch

namespace IGWatch

/-! ## Theorems -/

theorem hexVal_hexDigitCh : ∀ n, n < 16 → hexVal (hexDigitCh n) = some n := by decide

theorem parseStrBody_escape (s r : List Char) :
    parseStrBody (escapeStr s ++ '"' :: r) = some (s, r) := by
  induction s with
  | nil => simp [escapeStr, parseStrBody]
  | cons c cs ih =>
    have he : escapeStr (c :: cs) = escChar c ++ escapeStr cs := by
      simp [escapeStr]
    rw [he, List.append_assoc]
    unfold escChar
    split_ifs with h1 h2 h3 h4 h5 h6 h7 h8
    · subst h1; simp [parseStrBody, escDecode, escPairs, ih]
    · subst h2; simp [parseStrBody, escDecode, escPairs, ih]
    · subst h3; simp [parseStrBody, escDecode, escPairs, ih]
    · subst h4; simp [parseStrBody, escDecode, escPairs, ih]
    · subst h5; simp [parseStrBody, escDecode, escPairs, ih]
    · subst h6; simp [parseStrBody, escDecode, escPairs, ih]
    · subst h7; simp [parseStrBody, escDecode, escPairs, ih]
    · rw [List.singleton_append, parseStrBody.eq_def]
      split <;> simp_all [ih]
    · have hv1 : hexVal (hexDigitCh (c.toNat / 16)) = some (c.toNat / 16) :=
        hexVal_hexDigitCh _ (by omega)
      have hv2 : hexVal (hexDigitCh (c.toNat % 16)) = some (c.toNat % 16) :=
        hexVal_hexDigitCh _ (by omega)
      have hv0 : hexVal '0' = some 0 := by decide
      simp only [List.cons_append, List.nil_append, parseStrBody, hv0, hv1, hv2]
      have hn : ((0 * 16 + 0) * 16 + c.toNat / 16) * 16 + c.toNat % 16 = c.toNat := by omega
      rw [hn]
      have hlt : (decide (c.toNat < 55296) || decide (57344 ≤ c.toNat)) = true := by
        simp only [Bool.or_eq_true, decide_eq_true_eq]
        omega
      simp [hlt, ih, Char.ofNat_toNat]

theorem parseStringLit_strLit (s t : List Char) :
    parseStringLit (strLit s ++ t) = some (s, t) := by
  have h : strLit s ++ t = '"' :: (escapeStr s ++ '"' :: t) := by
    simp [strLit]
  rw [h]
  simp [parseStringLit, parseStrBody_escape]

theorem elemsText_head (x : List Char) (xs : List (List Char)) :
    ∃ t, elemsText (x :: xs) = '"' :: t := by
  cases xs <;> simp [elemsText, strLit]

theorem skipWs_cons_of_not (c : Char) (l : List Char) (h : isJsonWs c = false) :
    skipWs (c :: l) = c :: l := by
  simp [skipWs, List.dropWhile_cons, h]

theorem parseElemsF_elems (l : List (List Char)) :
    ∀ (fuel : Nat) (r : List Char), l ≠ [] → l.length ≤ fuel →
      parseElemsF fuel (elemsText l ++ ']' :: r) = some (l, r) := by
  induction l with
  | nil => simp
  | cons x xs ih =>
    intro fuel r _ hf
    have hf1 : 1 ≤ fuel := le_trans (by simp) hf
    cases fuel with
    | zero => exact absurd hf1 (by simp)
    | succ fuel' =>
     cases xs with
    | nil =>
      simp [elemsText, parseElemsF, parseStringLit_strLit, skipWs, List.dropWhile_cons,
        isJsonWs]
    | cons y ys =>
      have hih := ih fuel' r (by simp) (by simp at hf ⊢; omega)
      obtain ⟨t, ht⟩ := elemsText_head y ys
      rw [ht] at hih
      simp only [elemsText]
      rw [ht]
      simp [parseElemsF, parseStringLit_strLit, skipWs, List.dropWhile_cons, isJsonWs]
      simpa using hih

theorem elemsText_length (l : List (List Char)) : l.length ≤ (elemsText l).length + 1 := by
  induction l with
  | nil => simp
  | cons x xs ih =>
    cases xs with
    | nil => simp [elemsText, strLit]
    | cons y ys =>
      simp only [elemsText, strLit] at *
      simp at *
      omega

theorem parseStrArray_dumps (l : List (List Char)) : parseStrArray (dumps l) = some l := by
  cases l with
  | nil => decide
  | cons x xs =>
    obtain ⟨t, ht⟩ := elemsText_head x xs
    have hlen : (x :: xs).length ≤ ('"' :: t ++ [']']).length := by
      have := elemsText_length (x :: xs)
      rw [ht] at this
      simp at this ⊢
      omega
    have hel := parseElemsF_elems (x :: xs) ('"' :: t ++ [']']).length [] (by simp)
      (by simpa using hlen)
    rw [ht] at hel
    simp only [parseStrArray, dumps, ht]
    rw [show ('[' :: ('"' :: t) ++ [']'] : List Char) = '[' :: ('"' :: (t ++ [']'])) by simp]
    rw [skipWs_cons_of_not '[' _ (by decide)]
    simp only [parseArrayCore]
    rw [skipWs_cons_of_not '"' _ (by decide)]
    simp at hel ⊢
    rw [hel]
    simp [skipWs]

theorem pyStrip_dumps_newline (m : List Char) :
    pyStrip ('[' :: m ++ [']'] ++ ['\n']) = '[' :: m ++ [']'] := by
  unfold pyStrip
  rw [show ('[' :: m ++ [']'] ++ ['\n'] : List Char) = '[' :: (m ++ [']'] ++ ['\n']) by simp]
  rw [List.dropWhile_cons_of_neg (by decide)]
  have h1 : ('[' :: (m ++ [']'] ++ ['\n'])).reverse = '\n' :: ']' :: (m.reverse ++ ['[']) := by
    simp
  rw [h1]
  rw [List.dropWhile_cons_of_pos (by decide)]
  rw [List.dropWhile_cons_of_neg (by decide)]
  simp

theorem loadSeen_saveContent (seen : List (List Char)) :
    loadSeen (saveContent seen) = sortLC seen.dedup := by
  unfold saveContent loadSeen
  have hne : (dumps (sortLC seen.dedup) ++ ['\n']).isEmpty = false := by
    simp [dumps]
  rw [if_neg (by simp [hne])]
  have hstrip : pyStrip (dumps (sortLC seen.dedup) ++ ['\n']) = dumps (sortLC seen.dedup) := by
    have : dumps (sortLC seen.dedup) ++ ['\n']
        = '[' :: elemsText (sortLC seen.dedup) ++ [']'] ++ ['\n'] := by
      simp [dumps]
    rw [this, pyStrip_dumps_newline]
    simp [dumps]
  rw [hstrip]
  rw [if_neg (by simp [dumps])]
  rw [if_pos (by simp [dumps])]
  rw [parseStrArray_dumps]

theorem mem_insertSorted (a x : List Char) (l : List (List Char)) :
    a ∈ insertSorted x l ↔ a = x ∨ a ∈ l := by
  induction l with
  | nil => simp [insertSorted]
  | cons y ys ih =>
    simp only [insertSorted]
    split
    · simp
    · simp [ih]
      tauto

theorem mem_sortLC (a : List Char) (l : List (List Char)) : a ∈ sortLC l ↔ a ∈ l := by
  induction l with
  | nil => simp [sortLC]
  | cons x xs ih =>
    simp only [sortLC, List.foldr_cons] at *
    rw [mem_insertSorted, ih]
    simp

theorem mem_stateAdd_self (s : List (List Char)) (k : List Char) : k ∈ stateAdd s k := by
  unfold stateAdd
  split
  · assumption
  · simp

theorem mem_stateAdd_of_mem (s : List (List Char)) (k a : List Char) (h : a ∈ s) :
    a ∈ stateAdd s k := by
  unfold stateAdd
  split
  · assumption
  · simp [h]

theorem mem_foldl_stateAdd_of_mem (ids : List (List Char)) (init : List (List Char))
    (a : List Char) (h : a ∈ init) : a ∈ ids.foldl stateAdd init := by
  induction ids generalizing init with
  | nil => simpa using h
  | cons i is ih => exact ih (stateAdd init i) (mem_stateAdd_of_mem _ _ _ h)

theorem mem_foldl_stateAdd (ids : List (List Char)) (init : List (List Char))
    (a : List Char) (h : a ∈ ids) : a ∈ ids.foldl stateAdd init := by
  induction ids generalizing init with
  | nil => simp at h
  | cons i is ih =>
    rcases List.mem_cons.mp h with rfl | hm
    · exact mem_foldl_stateAdd_of_mem is _ _ (mem_stateAdd_self _ _)
    · exact ih _ hm

/-- C1: for every finite set of string ids, adding each id with `State.add`,
calling `State.save`, and constructing a new `State` over the written file
(which runs `State._load`) makes `State.has(id)` return true for every added
id. -/
theorem c1_add_save_reload (ids init : List (List Char)) (id : List Char) (h : id ∈ ids) :
    stateHas (loadSeen (saveContent (ids.foldl stateAdd init))) id = true := by
  rw [loadSeen_saveContent]
  have h1 : id ∈ ids.foldl stateAdd init := mem_foldl_stateAdd ids init id h
  simp [stateHas, mem_sortLC, List.mem_dedup, h1]

/-- Witness for C1 at a concrete id set. -/
theorem c1_add_save_reload_witness :
    (String.toList "id-a") ∈ [String.toList "id-a", String.toList "id-b"] ∧
      stateHas
        (loadSeen (saveContent
          ([String.toList "id-a", String.toList "id-b"].foldl stateAdd [])))
        (String.toList "id-a") = true :=
  ⟨by decide, c1_add_save_reload _ _ _ (by decide)⟩

/-- C2: modelling `State.save` as (write the complete serialized set to a
fresh temporary file in the target's directory; atomically rename it over the
target), every intermediate filesystem state of an interrupted save holds
either the prior complete target content or the new complete content at the
target path, never a truncated mixture. -/
theorem c2_save_interrupted_target (prior : Option (List Char)) (seen : List (List Char))
    (fs : FsState) (h : fs ∈ saveSteps prior seen) :
    fs.target = prior ∨ fs.target = some (saveContent seen) := by
  unfold saveSteps at h
  rcases List.mem_cons.mp h with rfl | h2
  · left; rfl
  · rcases List.mem_append.mp h2 with hm | hl
    · obtain ⟨k, -, rfl⟩ := List.mem_map.mp hm
      left; rfl
    · have : fs = { tmpFile := none, target := some (saveContent seen) } := by
        simpa using hl
      subst this
      right; rfl

/-- Witness for C2 at a concrete interrupted step. -/
theorem c2_save_interrupted_target_witness :
    (({ tmpFile := some (String.toList "["), target := none } : FsState)
        ∈ saveSteps none [String.toList "x"]) ∧
      (({ tmpFile := some (String.toList "["), target := none } : FsState).target = none ∨
        ({ tmpFile := some (String.toList "["), target := none } : FsState).target =
          some (saveContent [String.toList "x"])) :=
  ⟨by decide, c2_save_interrupted_target none [String.toList "x"] _ (by decide)⟩

end IGWatch
namespace IGWatch

set_option maxHeartbeats 2000000 in
theorem linesAll_ne_nil (l : List Char) : linesAll l ≠ [] := by
  induction l using linesAll.induct <;> simp_all [linesAll]

theorem linesAll_append (e l h : List Char) (t : List (List Char))
    (he : ∀ c ∈ e, isLineBreakCh c = false) (hl : linesAll l = h :: t) :
    linesAll (e ++ l) = (e ++ h) :: t := by
  induction e with
  | nil => simpa using hl
  | cons c cs ih =>
    have hc : isLineBreakCh c = false := he c (by simp)
    have hih := ih (fun x hx => he x (by simp [hx]))
    rw [List.cons_append, linesAll.eq_def]
    split
    · rename_i heq; exact absurd heq (by simp)
    · rename_i cs1 heq
      have hcr := (List.cons.inj heq).1
      subst hcr
      simp [isLineBreakCh] at hc
    · rename_i c1 cs1 heq
      obtain ⟨rfl, hrest⟩ := List.cons.inj heq
      rw [if_neg (by simp [hc])]
      rw [← hrest, hih]
      simp

theorem linesAll_newline (t : List Char) : linesAll ('\n' :: t) = [] :: linesAll t := by
  rw [linesAll.eq_def]
  split
  · rename_i heq; exact absurd heq (by simp)
  · rename_i cs1 heq
    exact absurd (List.cons.inj heq).1 (by decide)
  · rename_i c1 cs1 heq
    obtain ⟨rfl, rfl⟩ := List.cons.inj heq
    rw [if_pos (by decide)]

theorem linesAll_pyJoinNL (entries : List (List Char)) (hne : entries ≠ [])
    (hbr : ∀ e ∈ entries, ∀ c ∈ e, isLineBreakCh c = false) :
    linesAll (pyJoinNL entries) = entries := by
  induction entries with
  | nil => simp at hne
  | cons e es ih =>
    cases es with
    | nil =>
      have h0 : linesAll ([] : List Char) = [] :: [] := by simp [linesAll]
      have := linesAll_append e [] [] [] (fun c hc => hbr e (by simp) c hc) h0
      simpa [pyJoinNL] using this
    | cons e2 es2 =>
      have hih := ih (by simp) (fun x hx => hbr x (by simp [hx]))
      have hl : linesAll ('\n' :: pyJoinNL (e2 :: es2)) = [] :: (e2 :: es2) := by
        rw [linesAll_newline, hih]
      have := linesAll_append e ('\n' :: pyJoinNL (e2 :: es2)) [] (e2 :: es2)
        (fun c hc => hbr e (by simp) c hc) hl
      simpa [pyJoinNL] using this

theorem pyJoinNL_ne_nil (e : List Char) (es : List (List Char)) (h : e ≠ []) :
    pyJoinNL (e :: es) ≠ [] := by
  cases es <;> simp [pyJoinNL, h]

end IGWatch

namespace IGWatch

theorem pySplitlines_pyJoinNL (entries : List (List Char)) (hne : entries ≠ [])
    (h1 : ∀ e ∈ entries, e ≠ [])
    (hbr : ∀ e ∈ entries, ∀ c ∈ e, isLineBreakCh c = false) :
    pySplitlines (pyJoinNL entries) = entries := by
  obtain ⟨e, es, rfl⟩ : ∃ e es, entries = e :: es := by
    cases entries with
    | nil => simp at hne
    | cons e es => exact ⟨e, es, rfl⟩
  unfold pySplitlines
  rw [if_neg (by simpa using pyJoinNL_ne_nil e es (h1 e (by simp)))]
  rw [linesAll_pyJoinNL _ hne hbr]
  rw [if_neg ?hlast]
  case hlast =>
    intro hsome
    have hmem : ([] : List Char) ∈ e :: es := by
      exact List.mem_of_mem_getLast? hsome
    exact h1 [] hmem rfl

theorem pyStrip_eq_self (l : List Char)
    (hh : ∀ c, l.head? = some c → isSpaceCh c = false)
    (hl : ∀ c, l.getLast? = some c → isSpaceCh c = false) :
    pyStrip l = l := by
  unfold pyStrip
  cases l with
  | nil => simp
  | cons a as =>
    rw [List.dropWhile_cons_of_neg (by simp [hh a rfl])]
    cases hrev : (a :: as).reverse with
    | nil => simp at hrev
    | cons b bs =>
      have hb : (a :: as).getLast? = some b := by
        rw [← List.head?_reverse, hrev]
        rfl
      have hdw : List.dropWhile isSpaceCh (b :: bs) = b :: bs :=
        List.dropWhile_cons_of_neg (by simp [hl b hb])
      rw [hdw, ← hrev]
      simp

end IGWatch

namespace IGWatch

theorem pyJoinNL_head? (e : List Char) (es : List (List Char)) (h : e ≠ []) :
    (pyJoinNL (e :: es)).head? = e.head? := by
  obtain ⟨c, cs, rfl⟩ : ∃ c cs, e = c :: cs := by
    cases e with
    | nil => simp at h
    | cons c cs => exact ⟨c, cs, rfl⟩
  cases es <;> simp [pyJoinNL]

theorem pyJoinNL_getLast? (entries : List (List Char)) (hne : entries ≠ [])
    (h1 : ∀ e ∈ entries, e ≠ []) :
    ∃ e ∈ entries, (pyJoinNL entries).getLast? = e.getLast? := by
  induction entries with
  | nil => simp at hne
  | cons e es ih =>
    cases es with
    | nil => exact ⟨e, by simp, by simp [pyJoinNL]⟩
    | cons e2 es2 =>
      obtain ⟨x, hx, hlast⟩ := ih (by simp) (fun a ha => h1 a (by simp [ha]))
      refine ⟨x, by simp [hx], ?_⟩
      have hx2 : pyJoinNL (e2 :: es2) ≠ [] :=
        pyJoinNL_ne_nil e2 es2 (h1 e2 (by simp))
      have hs : (pyJoinNL (e2 :: es2)).getLast?.isSome := List.getLast?_isSome.mpr hx2
      show (pyJoinNL (e :: e2 :: es2)).getLast? = x.getLast?
      have hj : pyJoinNL (e :: e2 :: es2) = e ++ '\n' :: pyJoinNL (e2 :: es2) := by
        simp [pyJoinNL]
      rw [hj, ← hlast]
      rw [show ('\n' :: pyJoinNL (e2 :: es2)) = ['\n'] ++ pyJoinNL (e2 :: es2) by simp]
      rw [← List.append_assoc, List.getLast?_append]
      cases ho : (pyJoinNL (e2 :: es2)).getLast? with
      | none => rw [ho] at hs; simp at hs
      | some y => simp [Option.or]

end IGWatch

namespace IGWatch

theorem pyStrip_dumps (m : List Char) :
    pyStrip ('[' :: m ++ [']']) = '[' :: m ++ [']'] := by
  apply pyStrip_eq_self
  · intro c hc
    simp at hc
    subst hc
    decide
  · intro c hc
    rw [show ('[' :: m ++ [']'] : List Char) = ('[' :: m) ++ [']'] by simp,
      List.getLast?_concat] at hc
    obtain rfl : c = ']' := by simpa using hc.symm
    decide

theorem loadSeen_dumps (l : List (List Char)) : loadSeen (dumps l) = l := by
  unfold loadSeen
  rw [if_neg (by simp [dumps])]
  have hd : dumps l = '[' :: elemsText l ++ [']'] := by simp [dumps]
  rw [show pyStrip (dumps l) = dumps l by rw [hd]; exact pyStrip_dumps _]
  rw [if_neg (by simp [dumps])]
  rw [if_pos (by simp [dumps])]
  rw [parseStrArray_dumps]

theorem loadSeen_pyJoinNL (entries : List (List Char)) (hne : entries ≠ [])
    (h1 : ∀ e ∈ entries, e ≠ [])
    (h2 : ∀ e ∈ entries, ∀ c ∈ e, isSpaceCh c = false ∧ isLineBreakCh c = false)
    (hhead : ∀ c t, entries.head? = some (c :: t) → c ≠ '[' ∧ c ≠ '{' ∧ c ≠ '}') :
    loadSeen (pyJoinNL entries) = entries := by
  obtain ⟨e, es, rfl⟩ : ∃ e es, entries = e :: es := by
    cases entries with
    | nil => simp at hne
    | cons e es => exact ⟨e, es, rfl⟩
  obtain ⟨c0, cs0, rfl⟩ : ∃ c cs, e = c :: cs := by
    cases e with
    | nil => exact absurd rfl (h1 [] (by simp))
    | cons c cs => exact ⟨c, cs, rfl⟩
  have hh0 := hhead c0 cs0 (by simp)
  have hjh : (pyJoinNL ((c0 :: cs0) :: es)).head? = some c0 := by
    rw [pyJoinNL_head? _ _ (by simp)]
    rfl
  have hstrip : pyStrip (pyJoinNL ((c0 :: cs0) :: es)) = pyJoinNL ((c0 :: cs0) :: es) := by
    apply pyStrip_eq_self
    · intro c hc
      rw [hjh] at hc
      have hcc : c0 = c := by simpa using hc
      rw [← hcc]
      exact (h2 (c0 :: cs0) (by simp) c0 (by simp)).1
    · intro c hc
      obtain ⟨x, hx, hlast⟩ := pyJoinNL_getLast? _ (by simp) h1
      rw [hlast] at hc
      exact (h2 x hx c (List.mem_of_mem_getLast? hc)).1
  unfold loadSeen
  rw [if_neg (by simpa using pyJoinNL_ne_nil _ es (by simp))]
  rw [hstrip]
  rw [if_neg (by simpa using pyJoinNL_ne_nil _ es (by simp))]
  rw [if_neg ?hbr]
  case hbr =>
    rw [hjh]
    simp only [Bool.or_eq_true, beq_iff_eq, Option.some.injEq]
    push_neg
    exact ⟨⟨hh0.1, hh0.2.1⟩, hh0.2.2⟩
  rw [pySplitlines_pyJoinNL _ (by simp) h1 (fun a ha c hc => (h2 a ha c hc).2)]
  rw [List.filter_eq_self.mpr]
  intro a ha
  have hstr : pyStrip a = a := by
    apply pyStrip_eq_self
    · intro c hc
      exact (h2 a ha c (by
        cases a with
        | nil => simp at hc
        | cons x xs =>
          obtain rfl : c = x := by simpa using hc.symm
          simp)).1
    · intro c hc
      exact (h2 a ha c (List.mem_of_mem_getLast? hc)).1
  rw [hstr]
  simpa using h1 a ha

end IGWatch

namespace IGWatch

/-- C9 counterexample: a legacy newline-delimited file holding the single
entry `"[x"` loads as the empty set (its first byte routes it to the JSON
parser, which fails), while the JSON-array file holding the same entry loads
as `{"[x"}` — the membership sets differ. -/
theorem c9_counterexample :
    stateHas (loadSeen (pyJoinNL [String.toList "[x"])) (String.toList "[x") = false ∧
      stateHas (loadSeen (dumps [String.toList "[x"])) (String.toList "[x") = true := by
  decide

/-- C9 amended: legacy and JSON-array state files over the same entries give
the same membership, provided every entry is non-empty and free of
whitespace/line-break characters, and the first entry does not begin with
`[`, `{` or `}`. -/
theorem c9_legacy_json_equiv (entries : List (List Char))
    (h1 : ∀ e ∈ entries, e ≠ [])
    (h2 : ∀ e ∈ entries, ∀ c ∈ e, isSpaceCh c = false ∧ isLineBreakCh c = false)
    (hhead : ∀ e ∈ entries.take 1, ∀ c ∈ e.take 1, c ≠ '[' ∧ c ≠ '{' ∧ c ≠ '}')
    (k : List Char) :
    stateHas (loadSeen (pyJoinNL entries)) k = stateHas (loadSeen (dumps entries)) k := by
  cases entries with
  | nil =>
    rw [loadSeen_dumps]
    rfl
  | cons e es =>
    rw [loadSeen_dumps]
    rw [loadSeen_pyJoinNL (e :: es) (by simp) h1 h2]
    intro c t hct
    have he : e = c :: t := by simpa using hct
    subst he
    exact hhead (c :: t) (by simp) c (by simp)

/-- Witness for C9 at a concrete entry list and key. -/
theorem c9_legacy_json_equiv_witness :
    stateHas (loadSeen (pyJoinNL [String.toList "alpha", String.toList "beta"]))
        (String.toList "alpha")
      = stateHas (loadSeen (dumps [String.toList "alpha", String.toList "beta"]))
        (String.toList "alpha") :=
  c9_legacy_json_equiv _ (by decide) (by decide) (by decide) _

end IGWatch
namespace IGWatch

/-- C3 counterexample: at the claim's exact fixture the extractor leaves
`revenue.yoy` at its `"n/a"` sentinel (the decimal point of `$120.5` ends the
`[^.\n]` segment before the percentage, and no directional-verb pattern
exists in the code), and the period detector formats its result as
`"2025-Q2"`, not `"Q2 2025"`. -/
theorem c3_counterexample :
    ¬ ((extract_numbers (String.toList
          "Revenue of $120.5 million, up 12% YoY\nAdjusted EBITDA of $30.2 million")).revenue.yoy
        = String.toList "up 12%" ∧
      detect_period_key (String.toList "Acme Gaming Reports Second Quarter 2025 Results")
        (String.toList "Revenue of $120.5 million, up 12% YoY\nAdjusted EBITDA of $30.2 million")
        = some (String.toList "Q2 2025")) := by
  decide

/-- C3 amended: the actual outputs on the fixture — revenue and EBITDA
currents as claimed, both YoY fields left at the `"n/a"` sentinel, and the
period label `"2025-Q2"`. -/
theorem c3_fixture_outputs :
    (extract_numbers (String.toList
        "Revenue of $120.5 million, up 12% YoY\nAdjusted EBITDA of $30.2 million")).revenue.current
      = String.toList "$120.5 million" ∧
    (extract_numbers (String.toList
        "Revenue of $120.5 million, up 12% YoY\nAdjusted EBITDA of $30.2 million")).revenue.yoy
      = String.toList "n/a" ∧
    (extract_numbers (String.toList
        "Revenue of $120.5 million, up 12% YoY\nAdjusted EBITDA of $30.2 million")).ebitda.current
      = String.toList "$30.2 million" ∧
    (extract_numbers (String.toList
        "Revenue of $120.5 million, up 12% YoY\nAdjusted EBITDA of $30.2 million")).ebitda.yoy
      = String.toList "n/a" ∧
    detect_period_key (String.toList "Acme Gaming Reports Second Quarter 2025 Results")
      (String.toList "Revenue of $120.5 million, up 12% YoY\nAdjusted EBITDA of $30.2 million")
      = some (String.toList "2025-Q2") := by
  decide

/-- C6 counterexample: a title holding both `"Q2 2025"` and `"FY2025"` makes
the detector return `"2025-Q2"` — the quarter wins, but in `"YYYY-Qn"`
format, not the claimed literal `"Q2 2025"`. -/
theorem c6_counterexample :
    detect_period_key (String.toList "Q2 2025 and FY2025") [] =
        some (String.toList "2025-Q2") ∧
      detect_period_key (String.toList "Q2 2025 and FY2025") [] ≠
        some (String.toList "Q2 2025") := by
  decide

/-- C6 amended: whenever the explicit `q[1-4] <year>` pattern matches in the
lowered title+body, the detector returns that first match's label in
`"YYYY-Qn"` form — the FY pattern, checked last, can never preempt it. -/
theorem c6_quarter_priority (title text : List Char) (q : Char) (y : List Char)
    (h : scanPat p1Here none (lowerL (title ++ '\n' :: text)) = some (q, y)) :
    detect_period_key title text = some (y ++ '-' :: 'Q' :: [q]) := by
  simp only [detect_period_key, h]

/-- Witness for C6 on the claim's own title. -/
theorem c6_quarter_priority_witness :
    scanPat p1Here none
        (lowerL (String.toList "Q2 2025 and FY2025" ++ '\n' :: [])) =
      some ('2', String.toList "2025") ∧
    detect_period_key (String.toList "Q2 2025 and FY2025") [] =
      some (String.toList "2025" ++ '-' :: 'Q' :: ['2']) :=
  ⟨by decide, c6_quarter_priority _ _ _ _ (by decide)⟩

end IGWatch
namespace IGWatch

theorem searchKV_eq_none (lab : List Char → Option (List Char))
    (val : List Char → Option (List Char × List Char)) (l : List Char)
    (h : ∀ i ≤ l.length, ∀ rest, lab (l.drop i) = some rest → gapScan val rest = none) :
    searchKV lab val l = none := by
  induction l with
  | nil =>
    simp only [searchKV]
    cases hl : lab [] with
    | some rest => exact h 0 (by simp) rest (by simpa using hl)
    | none => rfl
  | cons c cs ih =>
    simp only [searchKV]
    have hih : searchKV lab val cs = none := by
      apply ih
      intro i hi rest hr
      exact h (i + 1) (by simp; omega) rest (by simpa using hr)
    cases hl : lab (c :: cs) with
    | some rest =>
      have h0 := h 0 (by simp) rest (by simpa using hl)
      simp [h0, hih]
    | none => exact hih

/-- C4: when no revenue label (`revenue`/`net sales`/`turnover`) is followed,
within its dot-and-newline-free segment, by a `_MONEY` token anywhere in the
first 6000 characters, `_extract_numbers` returns (it is total) with the
revenue KPI's current field left at the explicit `"Not found"` sentinel the
code uses for absence — never a fabricated value. -/
theorem c4_no_revenue_no_current (text : List Char)
    (h : ∀ i ≤ (text.take 6000).length, ∀ rest,
      labelRevenue ((text.take 6000).drop i) = some rest →
        gapScan matchMoney rest = none) :
    (extract_numbers text).revenue.current = String.toList "Not found" := by
  simp only [extract_numbers]
  rw [searchKV_eq_none _ _ _ h]
  rfl

/-- Witness for C4 on revenue-free text. -/
theorem c4_no_revenue_no_current_witness :
    (∀ i ≤ ((String.toList "No financial figures are mentioned here at all.").take 6000).length,
      ∀ rest,
        labelRevenue (((String.toList "No financial figures are mentioned here at all.").take
            6000).drop i) = some rest →
          gapScan matchMoney rest = none) ∧
    (extract_numbers (String.toList "No financial figures are mentioned here at all.")).revenue.current
      = String.toList "Not found" :=
  ⟨by decide, c4_no_revenue_no_current _ (by decide)⟩

end IGWatch
namespace IGWatch

theorem stripCI_append (p : List Char) :
    ∀ l a r, stripCI p l = some (a, r) → l = a ++ r := by
  induction p with
  | nil => intro l a r h; simp [stripCI] at h; simp [h.1, h.2]
  | cons p ps ih =>
    intro l a r h
    cases l with
    | nil => simp [stripCI] at h
    | cons c cs =>
      simp only [stripCI] at h
      split at h
      · cases hs : stripCI ps cs with
        | none => rw [hs] at h; simp at h
        | some pr =>
          rw [hs] at h
          simp at h
          obtain ⟨rfl, rfl⟩ := h
          simp [ih cs pr.1 pr.2 (by rw [hs])]
      · simp at h

theorem matchFrac_append (l : List Char) : (matchFrac l).1 ++ (matchFrac l).2 = l := by
  rw [matchFrac.eq_def]
  split
  · rename_i cs
    split
    · simp
    · simp [List.takeWhile_append_dropWhile]
  · simp

theorem matchPctCore_append (l g r : List Char) (h : matchPctCore l = some (g, r)) :
    l = g ++ r := by
  cases l with
  | nil => simp [matchPctCore] at h
  | cons d cs =>
    simp only [matchPctCore, List.span_eq_take_drop] at h
    split at h
    · have e1 : cs.takeWhile Char.isDigit ++ cs.dropWhile Char.isDigit = cs :=
        List.takeWhile_append_dropWhile _ cs
      have e2 : (matchFrac (cs.dropWhile Char.isDigit)).1 ++
          (matchFrac (cs.dropWhile Char.isDigit)).2 = cs.dropWhile Char.isDigit :=
        matchFrac_append _
      split at h
      · rename_i r2 heq
        simp at h
        obtain ⟨h1, h2⟩ := h
        subst h2
        rw [← h1]
        rw [heq] at e2
        simp only [List.cons_append, List.append_assoc, List.singleton_append,
          List.nil_append]
        rw [e2, e1]
      · rename_i s r2 heq
        split at h
        · simp at h
          obtain ⟨h1, h2⟩ := h
          subst h2
          rw [← h1]
          rw [heq] at e2
          simp only [List.cons_append, List.append_assoc, List.singleton_append,
            List.nil_append]
          rw [e2, e1]
        · simp at h
      · simp at h
    · simp at h

theorem matchPct_append (l g r : List Char) (h : matchPct l = some (g, r)) : l = g ++ r := by
  cases l with
  | nil => simp [matchPct] at h
  | cons c cs =>
    simp only [matchPct] at h
    split at h
    · cases hp : matchPctCore cs with
      | none => rw [hp] at h; simp at h
      | some pr =>
        rw [hp] at h
        simp at h
        obtain ⟨rfl, rfl⟩ := h
        simp [matchPctCore_append cs pr.1 pr.2 (by rw [hp])]
    · exact matchPctCore_append _ _ _ h

end IGWatch

namespace IGWatch

theorem gapScan_sound (val : List Char → Option (List Char × List Char)) (l : List Char)
    (g : List Char) (h : gapScan val l = some g) :
    ∃ gap r2 r3, l = gap ++ r2 ∧ (∀ c ∈ gap, ¬(c = '.' ∨ c = '\n')) ∧
      val r2 = some (g, r3) := by
  induction l with
  | nil =>
    simp only [gapScan] at h
    cases hv : val [] with
    | none => rw [hv] at h; simp at h
    | some pr =>
      rw [hv] at h
      simp at h
      exact ⟨[], [], pr.2, by simp, by simp, by simp [hv, ← h]⟩
  | cons c cs ih =>
    simp only [gapScan] at h
    cases hv : val (c :: cs) with
    | some pr =>
      rw [hv] at h
      simp at h
      exact ⟨[], c :: cs, pr.2, by simp, by simp, by simp [hv, ← h]⟩
    | none =>
      rw [hv] at h
      simp only at h
      split at h
      · simp at h
      · obtain ⟨gap, r2, r3, hsplit, hgap, hval⟩ := ih h
        rename_i hc
        refine ⟨c :: gap, r2, r3, by simp [hsplit], ?_, hval⟩
        intro x hx
        rcases List.mem_cons.mp hx with rfl | hxm
        · simpa using hc
        · exact hgap x hxm

theorem searchKV_sound (lab : List Char → Option (List Char))
    (val : List Char → Option (List Char × List Char)) (l : List Char) (g : List Char)
    (h : searchKV lab val l = some g) :
    ∃ pre rest s, l = pre ++ rest ∧ lab rest = some s ∧
      ∃ gap r2 r3, s = gap ++ r2 ∧ (∀ c ∈ gap, ¬(c = '.' ∨ c = '\n')) ∧
        val r2 = some (g, r3) := by
  induction l with
  | nil =>
    simp only [searchKV] at h
    cases hl : lab [] with
    | none => rw [hl] at h; simp at h
    | some rest =>
      rw [hl] at h
      exact ⟨[], [], rest, by simp, hl, gapScan_sound val rest g h⟩
  | cons c cs ih =>
    simp only [searchKV] at h
    cases hl : lab (c :: cs) with
    | some s0 =>
      rw [hl] at h
      simp only at h
      cases hg : gapScan val s0 with
      | some g2 =>
        rw [hg] at h
        simp at h
        obtain rfl := h
        exact ⟨[], c :: cs, s0, by simp, hl, gapScan_sound val s0 g2 hg⟩
      | none =>
        rw [hg] at h
        simp only at h
        obtain ⟨pre, rest, s, hsplit, hlab, hrest⟩ := ih h
        exact ⟨c :: pre, rest, s, by simp [hsplit], hlab, hrest⟩
    | none =>
      rw [hl] at h
      obtain ⟨pre, rest, s, hsplit, hlab, hrest⟩ := ih h
      exact ⟨c :: pre, rest, s, by simp [hsplit], hlab, hrest⟩

end IGWatch

namespace IGWatch

theorem pctYoy_eq (l g r : List Char) (h : pctYoy l = some (g, r)) :
    matchPct l = some (g, r) ∧ yoyPhrase r = true := by
  unfold pctYoy at h
  cases hm : matchPct l with
  | none => rw [hm] at h; simp at h
  | some pr =>
    rw [hm] at h
    simp only at h
    split at h
    · rename_i hyp
      simp at h
      obtain ⟨rfl, rfl⟩ := h
      exact ⟨rfl, hyp⟩
    · simp at h

/-- C5 amended: a revenue YoY value is attached only through the explicit
phrase pattern — a `_PCT` percentage followed (after whitespace) by
`yoy` / `year-over-year` / `vs prior` — reachable from a literal `revenue`
label with no `.` or newline in between; the stored value is the normalised
percentage text alone (no directional-verb prefix, which the code does not
recognise at all), and without such a phrase the field stays `"n/a"`. -/
theorem c5_yoy_explicit_phrase_only (text : List Char)
    (h : (extract_numbers text).revenue.yoy ≠ String.toList "n/a") :
    ∃ pre rest s gap r2 r3 g,
      text.take 6000 = pre ++ rest ∧
      labelRevenueOnly rest = some s ∧
      s = gap ++ r2 ∧
      (∀ c ∈ gap, ¬(c = '.' ∨ c = '\n')) ∧
      matchPct r2 = some (g, r3) ∧
      yoyPhrase r3 = true ∧
      (extract_numbers text).revenue.yoy = norm g := by
  have hy : (extract_numbers text).revenue.yoy
      = ((searchKV labelRevenueOnly pctYoy (text.take 6000)).map norm).getD
          (String.toList "n/a") := by
    simp only [extract_numbers]
  rw [hy] at h ⊢
  cases hs : searchKV labelRevenueOnly pctYoy (text.take 6000) with
  | none => rw [hs] at h; simp at h
  | some g0 =>
    obtain ⟨pre, rest, s, hsplit, hlab, gap, r2, r3, hgap0, hgap, hval⟩ :=
      searchKV_sound _ _ _ _ hs
    obtain ⟨hp1, hp2⟩ := pctYoy_eq _ _ _ hval
    exact ⟨pre, rest, s, gap, r2, r3, g0, hsplit, hlab, hgap0, hgap, hp1, hp2, by simp⟩

/-- C5 counterexample: with the directional-verb form `up 12%` inside the
window of a matched revenue current, the code stores no YoY at all — the
claim's preferred-order fallback does not exist. -/
theorem c5_counterexample :
    (extract_numbers (String.toList
        "Revenue was $100 million, up 12% from the prior year")).revenue.current
      = String.toList "$100 million" ∧
    (extract_numbers (String.toList
        "Revenue was $100 million, up 12% from the prior year")).revenue.yoy
      = String.toList "n/a" ∧
    (String.toList "n/a" : List Char) ≠ String.toList "up 12%" := by
  decide

/-- Witness for C5 on text with an explicit phrase. -/
theorem c5_yoy_explicit_phrase_only_witness :
    (extract_numbers (String.toList "Revenue grew 5% yoy")).revenue.yoy
        ≠ String.toList "n/a" ∧
      (∃ pre rest s gap r2 r3 g,
        (String.toList "Revenue grew 5% yoy").take 6000 = pre ++ rest ∧
        labelRevenueOnly rest = some s ∧
        s = gap ++ r2 ∧
        (∀ c ∈ gap, ¬(c = '.' ∨ c = '\n')) ∧
        matchPct r2 = some (g, r3) ∧
        yoyPhrase r3 = true ∧
        (extract_numbers (String.toList "Revenue grew 5% yoy")).revenue.yoy = norm g) :=
  ⟨by decide, c5_yoy_explicit_phrase_only _ (by decide)⟩

end IGWatch
namespace IGWatch

theorem dedupCapGo_length (cands : List (List Char)) :
    ∀ seen out, out.length ≤ 7 → (dedupCapGo seen out cands).length ≤ 8 := by
  induction cands with
  | nil => intro seen out h; simpa [dedupCapGo] using by omega
  | cons h hs ih =>
    intro seen out hlen
    simp only [dedupCapGo]
    split
    · exact ih seen out hlen
    · split
      · simpa using by omega
      · rename_i hcap
        exact ih _ _ (by simp at hcap ⊢; omega)

theorem dedupCapGo_sublist (cands : List (List Char)) :
    ∀ seen out, ∃ sel, dedupCapGo seen out cands = out.reverse ++ sel ∧ sel.Sublist cands := by
  induction cands with
  | nil => intro seen out; exact ⟨[], by simp [dedupCapGo], by simp⟩
  | cons h hs ih =>
    intro seen out
    simp only [dedupCapGo]
    split
    · obtain ⟨sel, he, hs2⟩ := ih seen out
      exact ⟨sel, he, hs2.cons h⟩
    · split
      · exact ⟨[h], by simp, by simp⟩
      · obtain ⟨sel, he, hs2⟩ := ih (lowerL h :: seen) (h :: out)
        refine ⟨h :: sel, ?_, hs2.cons₂ h⟩
        rw [he]
        simp

theorem dedupCapGo_pairwise (cands : List (List Char)) :
    ∀ seen out,
      (∀ x ∈ out, lowerL x ∈ seen) →
      out.reverse.Pairwise (fun a b => lowerL a ≠ lowerL b) →
      (dedupCapGo seen out cands).Pairwise (fun a b => lowerL a ≠ lowerL b) := by
  induction cands with
  | nil => intro seen out _ hpw; simpa [dedupCapGo] using hpw
  | cons h hs ih =>
    intro seen out hseen hpw
    simp only [dedupCapGo]
    split
    · exact ih seen out hseen hpw
    · rename_i hnotin
      have hpw2 : (h :: out).reverse.Pairwise (fun a b => lowerL a ≠ lowerL b) := by
        simp only [List.reverse_cons]
        rw [List.pairwise_append]
        refine ⟨hpw, by simp, ?_⟩
        intro a ha b hb
        simp at hb
        subst hb
        intro hab
        exact hnotin (by rw [← hab]; exact hseen a (by simpa using ha))
      split
      · simpa using hpw2
      · exact ih _ _ (by
          intro x hx
          rcases List.mem_cons.mp hx with rfl | hxm
          · simp
          · simp [hseen x hxm]) hpw2

end IGWatch

namespace IGWatch

/-- C7 amended: for every article root and host the composer's output has at
most 8 entries (the literal cap in the dedup loop — `MAX_HIGHLIGHTS` is never
consulted), no two entries equal case-insensitively, and first-seen order: the
output is a sublist of the qualifying candidate sequence. -/
theorem c7_highlights_cap_dedup_order (goodWire junk : List (List Char))
    (root : ArticleRoot) (host : List Char) :
    (extract_highlights goodWire junk root host).length ≤ 8 ∧
      (extract_highlights goodWire junk root host).Pairwise
        (fun a b => lowerL a ≠ lowerL b) ∧
      (extract_highlights goodWire junk root host).Sublist
        (highlightCandidates goodWire junk root host) := by
  unfold extract_highlights dedupCap
  refine ⟨dedupCapGo_length _ _ _ (by simp), dedupCapGo_pairwise _ _ _ (by simp) (by simp), ?_⟩
  obtain ⟨sel, he, hs⟩ := dedupCapGo_sublist (highlightCandidates goodWire junk root host) [] []
  rw [he]
  simpa using hs

/-- C7 counterexample: eight distinct qualifying paragraphs on an untrusted
host produce eight highlights, exceeding the configured `MAX_HIGHLIGHTS`
default of 6 — `_extract_highlights` caps at the literal 8 and never reads
the configuration value. -/
theorem c7_counterexample :
    (extract_highlights [] JUNK_DOMAINS
        { liTexts := [],
          pTexts :=
            [String.toList "Quarterly revenue reached $101 million overall",
             String.toList "Quarterly revenue reached $102 million overall",
             String.toList "Quarterly revenue reached $103 million overall",
             String.toList "Quarterly revenue reached $104 million overall",
             String.toList "Quarterly revenue reached $105 million overall",
             String.toList "Quarterly revenue reached $106 million overall",
             String.toList "Quarterly revenue reached $107 million overall",
             String.toList "Quarterly revenue reached $108 million overall"],
          rootText := [] }
        (String.toList "example.com")).length = 8 ∧
      ¬ ((extract_highlights [] JUNK_DOMAINS
        { liTexts := [],
          pTexts :=
            [String.toList "Quarterly revenue reached $101 million overall",
             String.toList "Quarterly revenue reached $102 million overall",
             String.toList "Quarterly revenue reached $103 million overall",
             String.toList "Quarterly revenue reached $104 million overall",
             String.toList "Quarterly revenue reached $105 million overall",
             String.toList "Quarterly revenue reached $106 million overall",
             String.toList "Quarterly revenue reached $107 million overall",
             String.toList "Quarterly revenue reached $108 million overall"],
          rootText := [] }
        (String.toList "example.com")).length ≤ MAX_HIGHLIGHTS) := by
  decide

end IGWatch
namespace IGWatch

/-- C8 counterexample: a block-listed URL routed down the PDF branch whose
content `pdfminer` cannot parse makes `fetch_and_summarize` raise — the
source runs `extract_text(BytesIO(r.content))` before the blocked-domain
check with no `try`/`except` — so a blocked resolved host does not yield
`None` "regardless of content quality, without raising". -/
theorem c8_counterexample :
    is_blocked_domain [String.toList "bad.com"]
        (final_url_from_response [] (String.toList "http://bad.com/report.pdf") none)
      = true ∧
      isPdfResponse (String.toList "http://bad.com/report.pdf")
        { pdfText := none } = true ∧
      fetch_and_summarize { blockDomains := [String.toList "bad.com"] }
          (String.toList "http://bad.com/report.pdf") { pdfText := none }
        = Except.error () := by
  decide

/-- C8 amended: a resolved URL whose host is block-listed never yields a
payload on either branch, and the blocked-domain check runs on the final
resolved URL: the outcome is the deliberate `None` skip — except in the one
case where the PDF branch's text extraction fails, which raises before the
policy check is ever reached. -/
theorem c8_blocked_final_url_no_payload (cfg : Cfg) (request_url : List Char)
    (r : HttpResponse)
    (h : is_blocked_domain cfg.blockDomains
        (final_url_from_response r.headers request_url
          (if isPdfResponse request_url r then none else some r.html)) = true) :
    fetch_and_summarize cfg request_url r = Except.ok none ∨
      (isPdfResponse request_url r = true ∧ r.pdfText = none ∧
        fetch_and_summarize cfg request_url r = Except.error ()) := by
  by_cases hp : isPdfResponse request_url r = true
  · rw [if_pos hp] at h
    cases hpdf : r.pdfText with
    | none =>
      right
      refine ⟨hp, rfl, ?_⟩
      unfold fetch_and_summarize
      rw [if_pos hp, hpdf]
    | some text =>
      left
      unfold fetch_and_summarize
      rw [if_pos hp, hpdf]
      simp only [if_pos h]
  · rw [if_neg hp] at h
    left
    unfold fetch_and_summarize
    rw [if_neg hp]
    rw [if_pos h]

/-- Witness for C8 on a blocked host reached over the HTML branch. -/
theorem c8_blocked_final_url_no_payload_witness :
    (is_blocked_domain [String.toList "bad.com"]
        (final_url_from_response [] (String.toList "http://bad.com/results")
          (if isPdfResponse (String.toList "http://bad.com/results") {} then none
           else some ({} : HttpResponse).html)) = true) ∧
      (fetch_and_summarize { blockDomains := [String.toList "bad.com"] }
          (String.toList "http://bad.com/results") {} = Except.ok none ∨
        (isPdfResponse (String.toList "http://bad.com/results") {} = true ∧
          ({} : HttpResponse).pdfText = none ∧
          fetch_and_summarize { blockDomains := [String.toList "bad.com"] }
            (String.toList "http://bad.com/results") {} = Except.error ())) :=
  ⟨by decide, c8_blocked_final_url_no_payload _ _ _ (by decide)⟩

/-- C10: junk-domain membership always routes highlight extraction through
the untrusted paragraph path — even when the host also matches the
press-wire or `ir.`/`investor.` first-party patterns, the `<li>` path is
never taken. -/
theorem c10_junk_uses_paragraph_path (goodWire junk : List (List Char))
    (root : ArticleRoot) (host : List Char) (h : is_junk_domain junk host = true) :
    extract_highlights goodWire junk root host =
      dedupCap (root.pTexts.filterMap qualifyUntrusted) := by
  unfold extract_highlights highlightCandidates
  rw [h]
  simp

/-- Witness for C10 on `ir.fool.com`, a host that is both first-party-shaped
and junk-listed: the bullet list is ignored. -/
theorem c10_junk_uses_paragraph_path_witness :
    is_junk_domain JUNK_DOMAINS (String.toList "ir.fool.com") = true ∧
      is_wire_or_first_party [] (String.toList "ir.fool.com") = true ∧
      extract_highlights [] JUNK_DOMAINS
          { liTexts := [String.toList "Group revenue of $77 million, up 9% in the quarter"],
            pTexts := [], rootText := [] }
          (String.toList "ir.fool.com")
        = dedupCap (List.filterMap qualifyUntrusted []) :=
  ⟨by decide, by decide,
    c10_junk_uses_paragraph_path [] JUNK_DOMAINS
      { liTexts := [String.toList "Group revenue of $77 million, up 9% in the quarter"],
        pTexts := [], rootText := [] }
      (String.toList "ir.fool.com") (by decide)⟩

end IGWatch
